import Mathlib

/-!
Shallow embedding of `src/PythonScripts/main.py` (a script that fabricates
git commits over a date range) and proofs about its specification.

Modelling conventions:
- A calendar date is a `Nat`: the number of days since 1970-01-01
  (proleptic Gregorian, matching Python's `datetime.date.toordinal` up to a
  constant shift).
- An instant (`datetime.datetime`) is a `Nat`: seconds since 1970-01-01T00:00:00.
  `.date()` is division by 86400; `datetime.combine d (time h m s)` is
  `d * 86400 + (h * 3600 + m * 60 + s)`.
- `random.randint(lo, hi)` draws from a stream of naturals (`List Nat`):
  the head `x` yields `lo + x % (hi + 1 - lo)`, which is always in `[lo, hi]`
  and reaches every value of `[lo, hi]` for suitable `x`; an exhausted stream
  yields `lo`.
- `subprocess.run(..., check=True)` is modelled by an oracle
  `exec : Nat → Bool` giving the success of the k-th external invocation of
  the run; `check=True` on a failure raises, which we model by an explicit
  `Bool` result (`false` = exception propagating).
- Side effects (file appends, subprocess invocations, prints) are recorded
  in an event trace.
-/

/-- Seconds per day. -/
def secondsPerDay : Nat := 86400

/-- `datetime.date()` of an instant: its calendar day number. -/
def dateOf (t : Nat) : Nat := t / secondsPerDay

/-- `datetime.combine(day, time(h, m, s))`. -/
def combine (day h m s : Nat) : Nat := day * secondsPerDay + (h * 3600 + m * 60 + s)

/-- `random.randint(lo, hi)` on a stream of naturals: returns the drawn value
and the rest of the stream. The draw is always within `[lo, hi]` when
`lo ≤ hi`, and every value of `[lo, hi]` is realized by some stream head. -/
def randint (lo hi : Nat) : List Nat → Nat × List Nat
  | [] => (lo, [])
  | x :: s => (lo + x % (hi + 1 - lo), s)

/-- Body of the `for _ in range(commits_this_week)` loop of
`generate_commit_dates`: produce `n` commit datetimes for the week starting
at day `current`, clamping each commit day to `endD` (the end date) when it
would exceed it, with working-hours times. Returns the datetimes in
generation order and the remaining random stream. -/
def genWeek (current endD : Nat) : Nat → List Nat → List Nat × List Nat
  | 0, s => ([], s)
  | n + 1, s =>
    let r1 := randint 0 6 s
    let commit_day := current + r1.1
    let commit_day' := if commit_day > endD then endD else commit_day
    let r2 := randint 9 20 r1.2
    let r3 := randint 0 59 r2.2
    let r4 := randint 0 59 r3.2
    let commit_datetime := combine commit_day' r2.1 r3.1 r4.1
    let rest := genWeek current endD n r4.2
    (commit_datetime :: rest.1, rest.2)

/-- The `while current < end_date.date()` loop of `generate_commit_dates`:
week by week, draw `commits_this_week ∈ [3,5]` and generate that many
commit datetimes, then advance `current` by 7 days. `end_date` is an
instant (seconds). -/
def genLoop (end_date : Nat) (current : Nat) (s : List Nat) : List Nat :=
  if current < dateOf end_date then
    let r := randint 3 5 s
    let week := genWeek current (dateOf end_date) r.1 r.2
    week.1 ++ genLoop end_date (current + 7) week.2
  else
    []
termination_by dateOf end_date - current
decreasing_by simp [dateOf] at *; omega

/-- `generate_commit_dates(start_date, end_date)` from the source:
the weekly loop followed by an ascending sort. `start_date` is a calendar
day number, `end_date` an instant, `s` the random stream. -/
def generate_commit_dates (start_date end_date : Nat) (s : List Nat) : List Nat :=
  (genLoop end_date start_date s).mergeSort (fun a b => a ≤ b)

/-- Convert a day number (days since 1970-01-01) to a proleptic-Gregorian
civil date (year, month, day), following the standard era-based algorithm;
this matches Python's `datetime.date` calendar. -/
def civilFromDays (z : Nat) : Nat × Nat × Nat :=
  let z := z + 719468
  let era := z / 146097
  let doe := z % 146097
  let yoe := (doe - doe / 1460 + doe / 36524 - doe / 146096) / 365
  let y := yoe + era * 400
  let doy := doe - (365 * yoe + yoe / 4 - yoe / 100)
  let mp := (5 * doy + 2) / 153
  let d := doy - (153 * mp + 2) / 5 + 1
  let m := if mp < 10 then mp + 3 else mp - 9
  (if m ≤ 2 then y + 1 else y, m, d)

/-- Inverse conversion: day number of a civil date (year, month, day);
`datetime.date(y, m, d)` as a day count since 1970-01-01. -/
def daysFromCivil (y m d : Nat) : Nat :=
  let y := if m ≤ 2 then y - 1 else y
  let era := y / 400
  let yoe := y - era * 400
  let doy := (153 * (if m > 2 then m - 3 else m + 9) + 2) / 5 + (d - 1)
  let doe := yoe * 365 + yoe / 4 - yoe / 100 + doy
  era * 146097 + doe - 719468

/-- Zero-padded two-digit decimal rendering (`%m`, `%d`, `%H`, `%M`, `%S`). -/
def pad2 (n : Nat) : String := if n < 10 then "0" ++ toString n else toString n

/-- Zero-padded four-digit decimal rendering (`%Y`). -/
def pad4 (n : Nat) : String :=
  if n < 10 then "000" ++ toString n
  else if n < 100 then "00" ++ toString n
  else if n < 1000 then "0" ++ toString n
  else toString n

/-- Python's `str(date)`: `YYYY-MM-DD`. -/
def dateStr (day : Nat) : String :=
  let c := civilFromDays day
  pad4 c.1 ++ "-" ++ pad2 c.2.1 ++ "-" ++ pad2 c.2.2

/-- `commit_date.strftime("%Y-%m-%dT%H:%M:%S")` for an instant in seconds. -/
def strftime (t : Nat) : String :=
  let tod := t % secondsPerDay
  dateStr (t / secondsPerDay) ++ "T" ++
    pad2 (tod / 3600) ++ ":" ++ pad2 (tod % 3600 / 60) ++ ":" ++ pad2 (tod % 60)

/-- A process environment: an association list of variable/value pairs
(Python's `os.environ` / the `env=` argument of `subprocess.run`). -/
def Env : Type := List (String × String)

instance : DecidableEq Env := by unfold Env; infer_instance

/-- Dictionary assignment `env[k] = v`: replace the binding of `k` if
present, else append it. -/
def setKey (env : Env) (k v : String) : Env :=
  match env with
  | [] => [(k, v)]
  | (k', v') :: rest => if k' = k then (k, v) :: rest else (k', v') :: setKey rest k v

/-- Dictionary lookup `env[k]`. -/
def getKey (env : Env) (k : String) : Option String :=
  match env with
  | [] => none
  | (k', v') :: rest => if k' = k then some v' else getKey rest k

/-- The external git commands the script invokes. -/
inductive Cmd where
  | revParse
  | add (filename : String)
  | commit (message : String)
  | push
deriving DecidableEq

/-- One observable step of the run: a file append, an external-tool
invocation (with the environment explicitly passed, if any, and its
success), or a console print. -/
inductive Event where
  | append (filename line : String)
  | run (c : Cmd) (env : Option Env) (ok : Bool)
  | print (s : String)
deriving DecidableEq

/-- Process state threaded through the run: the number of external
invocations made so far (indexing into the oracle), the orchestrator's own
process environment (`os.environ`), and the lines of `dummy.txt`. -/
structure St where
  counter : Nat
  procEnv : Env
  file : List String
deriving DecidableEq

/-- `make_commit(commit_date)` from the source: append a line to
`dummy.txt`, `git add` it, then `git commit` with `GIT_AUTHOR_DATE` and
`GIT_COMMITTER_DATE` set to the formatted date in a copy of the ambient
environment. The `exec` oracle decides each invocation's success; a failed
invocation (`check=True`) stops the function with result `false`
(propagating exception). Returns (trace, state, ok). -/
def make_commit (exec : Nat → Bool) (commit_date : Nat) (st : St) :
    List Event × St × Bool :=
  let commit_date_str := strftime commit_date
  let filename := "dummy.txt"
  let line := "Fake commit on " ++ commit_date_str ++ "\n"
  let st0 : St := { st with file := st.file ++ [line] }
  let appendEv := Event.append filename line
  let ok1 := exec st0.counter
  let st1 : St := { st0 with counter := st0.counter + 1 }
  let addEv := Event.run (Cmd.add filename) none ok1
  if ok1 then
    let env := setKey (setKey st1.procEnv "GIT_AUTHOR_DATE" commit_date_str)
      "GIT_COMMITTER_DATE" commit_date_str
    let commit_message := "Fake commit for " ++ commit_date_str
    let ok2 := exec st1.counter
    let st2 : St := { st1 with counter := st1.counter + 1 }
    let commitEv := Event.run (Cmd.commit commit_message) (some env) ok2
    if ok2 then
      ([appendEv, addEv, commitEv, Event.print ("Committed: " ++ commit_message)], st2, true)
    else
      ([appendEv, addEv, commitEv], st2, false)
  else
    ([appendEv, addEv], st1, false)

/-- The `for commit_date in commit_dates: make_commit(commit_date)` loop of
`main`: process the schedule in order, stopping at the first failure
(whose exception propagates). -/
def applyCommits (exec : Nat → Bool) (dts : List Nat) (st : St) :
    List Event × St × Bool :=
  match dts with
  | [] => ([], st, true)
  | dt :: rest =>
    let r := make_commit exec dt st
    if r.2.2 then
      let r2 := applyCommits exec rest r.2.1
      (r.1 ++ r2.1, r2.2.1, r2.2.2)
    else
      (r.1, r.2.1, false)

/-- `main()` from the source: check `git rev-parse --is-inside-work-tree`
(a failure there is caught: print an error and return normally), generate
the schedule from the fixed start date 2024-06-01 up to `now`, apply the
commits one by one, then `git push` and print the final confirmation.
`now` stands for `datetime.datetime.now()` and `rng` for the ambient
random state, both ambient inputs made explicit. -/
def pyMain (exec : Nat → Bool) (rng : List Nat) (now : Nat) (st : St) :
    List Event × St × Bool :=
  let ok0 := exec st.counter
  let st0 : St := { st with counter := st.counter + 1 }
  let revEv := Event.run Cmd.revParse none ok0
  if ok0 then
    let start_date := daysFromCivil 2024 6 1
    let commit_dates := generate_commit_dates start_date now rng
    let genEv := Event.print ("Generating " ++ toString commit_dates.length ++
      " fake commits from " ++ dateStr start_date ++ " to " ++ dateStr (dateOf now) ++ "...")
    let r := applyCommits exec commit_dates st0
    if r.2.2 then
      let okP := exec r.2.1.counter
      let st3 : St := { r.2.1 with counter := r.2.1.counter + 1 }
      let pushEv := Event.run Cmd.push none okP
      if okP then
        (revEv :: genEv :: r.1 ++ [pushEv, Event.print "All fake commits have been pushed."],
          st3, true)
      else
        (revEv :: genEv :: r.1 ++ [pushEv], st3, false)
    else
      (revEv :: genEv :: r.1, r.2.1, false)
  else
    ([revEv, Event.print "Error: This script must be run inside a Git repository."], st0, true)

/-- Number of successful `git commit` invocations in a trace: the commits
actually recorded in the repository. -/
def succCommits (evs : List Event) : Nat :=
  evs.countP fun e =>
    match e with
    | Event.run (Cmd.commit _) _ true => true
    | _ => false

/-- Whether a trace contains a `git push` invocation (attempted publish). -/
def hasPush (evs : List Event) : Bool :=
  evs.any fun e =>
    match e with
    | Event.run Cmd.push _ _ => true
    | _ => false

/-- The modelled `randint` always draws within `[lo, hi]` when `lo ≤ hi`. -/
theorem randint_bounds (lo hi : Nat) (s : List Nat) (h : lo ≤ hi) :
    lo ≤ (randint lo hi s).1 ∧ (randint lo hi s).1 ≤ hi := by
  cases s with
  | nil => exact ⟨Nat.le_refl lo, h⟩
  | cons x s =>
    have hpos : 0 < hi + 1 - lo := by omega
    have hm := Nat.mod_lt x hpos
    simp only [randint]
    omega

/-- A week's inner loop produces exactly the drawn number of datetimes. -/
theorem genWeek_length (current endD : Nat) :
    ∀ n s, (genWeek current endD n s).1.length = n := by
  intro n
  induction n with
  | zero => intro s; simp [genWeek]
  | succ n ih => intro s; simp [genWeek, ih]

/-- Every datetime produced within one week's window lies between the
window start at 09:00:00 and the end date at 20:59:59 (provided the window
start does not already exceed the end date). -/
theorem mem_genWeek (current endD : Nat) (hce : current ≤ endD) :
    ∀ n s ts, ts ∈ (genWeek current endD n s).1 →
      current * secondsPerDay + 32400 ≤ ts ∧ ts ≤ endD * secondsPerDay + 75659 := by
  intro n
  induction n with
  | zero => intro s ts hts; simp [genWeek] at hts
  | succ n ih =>
    intro s ts hts
    simp only [genWeek, List.mem_cons] at hts
    rcases hts with rfl | hts
    · have hoff := randint_bounds 0 6 s (by omega)
      have hh := randint_bounds 9 20 (randint 0 6 s).2 (by omega)
      have hm := randint_bounds 0 59 (randint 9 20 (randint 0 6 s).2).2 (by omega)
      have hs := randint_bounds 0 59 (randint 0 59 (randint 9 20 (randint 0 6 s).2).2).2 (by omega)
      simp only [combine, secondsPerDay]
      split <;> omega
    · exact ih _ ts hts

/-- Every datetime produced by the weekly loop is at or after midnight of
the loop's current day, and its calendar date does not exceed the end
date. -/
theorem mem_genLoop (end_date current : Nat) (s : List Nat) (ts : Nat)
    (h : ts ∈ genLoop end_date current s) :
    current * secondsPerDay ≤ ts ∧ dateOf ts ≤ dateOf end_date := by
  rw [genLoop] at h
  split at h
  · rename_i hlt
    simp only [List.mem_append] at h
    rcases h with h | h
    · have hb := mem_genWeek current (dateOf end_date) (Nat.le_of_lt hlt) _ _ ts h
      simp only [dateOf, secondsPerDay] at hb ⊢
      omega
    · have hrec := mem_genLoop end_date (current + 7) _ ts h
      simp only [secondsPerDay] at hrec ⊢
      exact ⟨by omega, hrec.2⟩
  · simp at h
termination_by dateOf end_date - current
decreasing_by omega

/-- The weekly loop produces between 3 and 5 datetimes per week, over
`⌈(end date − current)/7⌉` weeks. -/
theorem genLoop_length (end_date current : Nat) (s : List Nat) :
    3 * ((dateOf end_date - current + 6) / 7) ≤ (genLoop end_date current s).length ∧
      (genLoop end_date current s).length ≤ 5 * ((dateOf end_date - current + 6) / 7) := by
  rw [genLoop]
  split
  · rename_i hlt
    have hr := randint_bounds 3 5 s (by omega)
    have hlen := genWeek_length current (dateOf end_date) (randint 3 5 s).1 (randint 3 5 s).2
    have ih := genLoop_length end_date (current + 7)
      (genWeek current (dateOf end_date) (randint 3 5 s).1 (randint 3 5 s).2).2
    simp only [List.length_append, hlen]
    omega
  · rename_i hge
    simp only [List.length_nil]
    omega
termination_by dateOf end_date - current
decreasing_by omega

/-- Number of iterations of the `while current < end_date.date()` loop,
mirroring the loop's control structure. -/
def loopIters (endD : Nat) (current : Nat) : Nat :=
  if current < endD then loopIters endD (current + 7) + 1 else 0
termination_by endD - current
decreasing_by omega

/-- The weekly loop runs exactly `⌈(endD − current)/7⌉` times. -/
theorem loopIters_eq (endD current : Nat) :
    loopIters endD current = (endD - current + 6) / 7 := by
  rw [loopIters]
  split
  · have ih := loopIters_eq endD (current + 7)
    omega
  · omega
termination_by endD - current
decreasing_by omega

/-- C1 (counterexample): the claim `start ≤ timestamp ≤ end` with `end`
compared as a full instant fails. With start date day 0 and end instant
259200 (midnight of day 3), the stream `[0, 6]` draws 3 commits, the first
with day offset 6; its day is clamped to day 3 but its time of day is
09:00:00, so the timestamp 291600 exceeds the end instant 259200. -/
theorem claim1_counterexample :
    ¬ (∀ ts ∈ generate_commit_dates 0 259200 [0, 6],
        0 * secondsPerDay ≤ ts ∧ ts ≤ 259200) := by
  intro h
  have h2 := h 291600 (by
    simp [generate_commit_dates, genLoop, genWeek, randint, dateOf, secondsPerDay, combine,
      List.mergeSort])
  omega

/-- C1 (amended): every timestamp in the generated schedule is at or after
the start date's midnight (so `start ≤ timestamp` holds as full instants),
and its calendar date does not exceed the end instant's calendar date; the
upper bound holds only at calendar-date granularity, since a timestamp
clamped onto the end date keeps a 09:00–20:59 time of day and may exceed
the end instant itself. -/
theorem generate_commit_dates_bounds (start_date end_date : Nat) (s : List Nat)
    (ts : Nat) (h : ts ∈ generate_commit_dates start_date end_date s) :
    start_date * secondsPerDay ≤ ts ∧ dateOf ts ≤ dateOf end_date := by
  rw [generate_commit_dates, List.mem_mergeSort] at h
  exact mem_genLoop end_date start_date s ts h

/-- C1 (witness): concrete instance of the amended bound at the
counterexample input, on the member timestamp 291600. -/
theorem generate_commit_dates_bounds_witness :
    291600 ∈ generate_commit_dates 0 259200 [0, 6] ∧
      (0 * secondsPerDay ≤ 291600 ∧ dateOf 291600 ≤ dateOf 259200) := by
  have hmem : 291600 ∈ generate_commit_dates 0 259200 [0, 6] := by
    simp [generate_commit_dates, genLoop, genWeek, randint, dateOf, secondsPerDay, combine,
      List.mergeSort]
  exact ⟨hmem, generate_commit_dates_bounds 0 259200 [0, 6] 291600 hmem⟩

/-- C2: `generate_commit_dates` always returns a list sorted in
non-decreasing order (it ends with an ascending sort). -/
theorem generate_commit_dates_sorted (start_date end_date : Nat) (s : List Nat) :
    List.Sorted (· ≤ ·) (generate_commit_dates start_date end_date s) := by
  unfold generate_commit_dates
  have h := @List.sorted_mergeSort Nat (fun a b => decide (a ≤ b))
    (by intro a b c hab hbc; simp only [decide_eq_true_eq] at *; omega)
    (by intro a b; simp only [Bool.or_eq_true, decide_eq_true_eq]; omega)
    (genLoop end_date start_date s)
  exact h.imp (by simp)

/-- C3: a degenerate range whose start date is at or past the end
instant's calendar date yields the empty schedule: the weekly loop's
strict guard fails at once. -/
theorem generate_commit_dates_degenerate (start_date end_date : Nat) (s : List Nat)
    (h : dateOf end_date ≤ start_date) :
    generate_commit_dates start_date end_date s = [] := by
  unfold generate_commit_dates
  rw [genLoop]
  simp [Nat.not_lt.2 h]

/-- C3 (witness): start date 5 with end instant 432000 (midnight of
day 5) produces the empty schedule. -/
theorem generate_commit_dates_degenerate_witness :
    dateOf 432000 ≤ 5 ∧ generate_commit_dates 5 432000 [1, 2, 3] = [] :=
  ⟨by decide, generate_commit_dates_degenerate 5 432000 [1, 2, 3] (by decide)⟩

/-- C4: over a range of exactly `W` whole weeks (the end date is the start
date plus `7·W` days, `W ≥ 1`), the schedule length lies in `[3W, 5W]`. -/
theorem generate_commit_dates_whole_weeks (start_date end_date : Nat) (s : List Nat)
    (W : Nat) (hW : 1 ≤ W) (h : dateOf end_date = start_date + 7 * W) :
    3 * W ≤ (generate_commit_dates start_date end_date s).length ∧
      (generate_commit_dates start_date end_date s).length ≤ 5 * W := by
  have hb := genLoop_length end_date start_date s
  rw [generate_commit_dates, List.length_mergeSort]
  omega

/-- C4 (witness): one whole week (start day 0, end instant 604800) with an
exhausted random stream yields 3 commits, within `[3·1, 5·1]`. -/
theorem generate_commit_dates_whole_weeks_witness :
    1 ≤ 1 ∧ dateOf 604800 = 0 + 7 * 1 ∧
      (3 * 1 ≤ (generate_commit_dates 0 604800 []).length ∧
        (generate_commit_dates 0 604800 []).length ≤ 5 * 1) :=
  ⟨Nat.le_refl 1, by decide,
    generate_commit_dates_whole_weeks 0 604800 [] 1 (Nat.le_refl 1) (by decide)⟩

/-- C10: for a non-degenerate range, the weekly loop runs exactly
`⌈D/7⌉` times, where `D` is the number of days from the start date to the
end date, and the schedule length lies in `[3·⌈D/7⌉, 5·⌈D/7⌉]` — a partial
final week still draws a full 3-to-5 commit count. -/
theorem generate_commit_dates_partial_weeks (start_date end_date : Nat) (s : List Nat)
    (h : start_date < dateOf end_date) :
    loopIters (dateOf end_date) start_date = (dateOf end_date - start_date + 6) / 7 ∧
      3 * ((dateOf end_date - start_date + 6) / 7) ≤
        (generate_commit_dates start_date end_date s).length ∧
      (generate_commit_dates start_date end_date s).length ≤
        5 * ((dateOf end_date - start_date + 6) / 7) := by
  have h1 := loopIters_eq (dateOf end_date) start_date
  have h2 := genLoop_length end_date start_date s
  rw [generate_commit_dates, List.length_mergeSort]
  exact ⟨h1, h2.1, h2.2⟩

/-- C10 (witness): a 10-day range (start day 0, end instant 864000) spans
a whole week plus a partial week: the loop runs `⌈10/7⌉ = 2` times and the
schedule (exhausted stream: 3 commits per week) has 6 timestamps, within
`[6, 10]`. -/
theorem generate_commit_dates_partial_weeks_witness :
    0 < dateOf 864000 ∧
      (loopIters (dateOf 864000) 0 = (dateOf 864000 - 0 + 6) / 7 ∧
        3 * ((dateOf 864000 - 0 + 6) / 7) ≤ (generate_commit_dates 0 864000 []).length ∧
        (generate_commit_dates 0 864000 []).length ≤ 5 * ((dateOf 864000 - 0 + 6) / 7)) :=
  ⟨by decide, generate_commit_dates_partial_weeks 0 864000 [] (by decide)⟩

/-- The line appended to `dummy.txt` for a commit date. -/
def commitLine (dt : Nat) : String := "Fake commit on " ++ strftime dt ++ "\n"

/-- The commit message for a commit date. -/
def commitMsg (dt : Nat) : String := "Fake commit for " ++ strftime dt

/-- The environment passed to the `git commit` invocation: the ambient
environment with both date variables overridden to the commit date. -/
def dateEnv (env0 : Env) (dt : Nat) : Env :=
  setKey (setKey env0 "GIT_AUTHOR_DATE" (strftime dt)) "GIT_COMMITTER_DATE" (strftime dt)

/-- Expected event block for one successfully applied commit date
(spec §4.2: append, stage, commit stamped with the date, progress line). -/
def commitEvents (env0 : Env) (dt : Nat) : List Event :=
  [Event.append "dummy.txt" (commitLine dt),
   Event.run (Cmd.add "dummy.txt") none true,
   Event.run (Cmd.commit (commitMsg dt)) (some (dateEnv env0 dt)) true,
   Event.print ("Committed: " ++ commitMsg dt)]

/-- When both of its invocations succeed, `make_commit` emits exactly the
expected event block, advances the invocation counter by two, appends one
line to the tracked file, and leaves the process environment unchanged. -/
theorem make_commit_all_ok (exec : Nat → Bool) (dt : Nat) (st : St)
    (h1 : exec st.counter = true) (h2 : exec (st.counter + 1) = true) :
    make_commit exec dt st =
      (commitEvents st.procEnv dt,
       ⟨st.counter + 2, st.procEnv, st.file ++ [commitLine dt]⟩, true) := by
  simp [make_commit, commitEvents, commitLine, commitMsg, dateEnv, h1, h2]

/-- A `make_commit` trace contains one successful `git commit` invocation
when the call succeeds and none when it fails. -/
theorem succCommits_make_commit (exec : Nat → Bool) (dt : Nat) (st : St) :
    succCommits (make_commit exec dt st).1 =
      (if (make_commit exec dt st).2.2 = true then 1 else 0) := by
  by_cases h1 : exec st.counter = true <;> by_cases h2 : exec (st.counter + 1) = true <;>
    simp [make_commit, succCommits, h1, h2]

/-- `make_commit` never invokes `git push`. -/
theorem hasPush_make_commit (exec : Nat → Bool) (dt : Nat) (st : St) :
    hasPush (make_commit exec dt st).1 = false := by
  by_cases h1 : exec st.counter = true <;> by_cases h2 : exec (st.counter + 1) = true <;>
    simp [make_commit, hasPush, h1, h2]

/-- A fully successful commit loop records exactly one commit per
timestamp. -/
theorem succCommits_applyCommits (exec : Nat → Bool) :
    ∀ (dts : List Nat) (st : St), (applyCommits exec dts st).2.2 = true →
      succCommits (applyCommits exec dts st).1 = dts.length := by
  intro dts
  induction dts with
  | nil => intro st _; simp [applyCommits, succCommits]
  | cons dt rest ih =>
    intro st hok
    by_cases hmc : (make_commit exec dt st).2.2 = true
    · have hmc1 := succCommits_make_commit exec dt st
      rw [hmc] at hmc1
      simp only [applyCommits, hmc, if_true] at hok ⊢
      simp only [succCommits, List.countP_append] at *
      rw [hmc1, ih _ hok]
      simp [List.length_cons]
      omega
    · exfalso
      simp [applyCommits, hmc] at hok

/-- The commit loop never invokes `git push`. -/
theorem hasPush_applyCommits (exec : Nat → Bool) :
    ∀ (dts : List Nat) (st : St), hasPush (applyCommits exec dts st).1 = false := by
  intro dts
  induction dts with
  | nil => intro st; simp [applyCommits, hasPush]
  | cons dt rest ih =>
    intro st
    by_cases hmc : (make_commit exec dt st).2.2 = true
    · simp only [applyCommits]
      rw [if_pos hmc]
      have h1 := hasPush_make_commit exec dt st
      have h2 := ih (make_commit exec dt st).2.1
      simp only [hasPush, List.any_append] at h1 h2 ⊢
      simp [h1, h2]
    · simp only [applyCommits]
      rw [if_neg hmc]
      exact hasPush_make_commit exec dt st

/-- Splitting the commit loop after a fully successful prefix. -/
theorem applyCommits_append (exec : Nat → Bool) :
    ∀ (done : List Nat) (st : St), (applyCommits exec done st).2.2 = true →
      ∀ rest, applyCommits exec (done ++ rest) st =
        ((applyCommits exec done st).1 ++
            (applyCommits exec rest (applyCommits exec done st).2.1).1,
          (applyCommits exec rest (applyCommits exec done st).2.1).2) := by
  intro done
  induction done with
  | nil => intro st _ rest; simp [applyCommits]
  | cons dt dts ih =>
    intro st hok rest
    by_cases hmc : (make_commit exec dt st).2.2 = true
    · simp only [applyCommits, hmc, if_true, List.cons_append] at hok ⊢
      simp only [List.append_eq] at *
      rw [ih _ hok rest]
      simp [List.append_assoc]
    · exfalso
      simp [applyCommits, hmc] at hok

/-- C7: if the `git rev-parse --is-inside-work-tree` precondition check
fails, `main` prints the error and returns before any mutation: the trace
is exactly the failed check and the error message (no append, stage,
commit, or push), the tracked file is untouched, zero commits are
recorded, and no publish is attempted. -/
theorem main_precondition_abort (exec : Nat → Bool) (rng : List Nat) (now : Nat) (st : St)
    (h : exec st.counter = false) :
    pyMain exec rng now st =
      ([Event.run Cmd.revParse none false,
        Event.print "Error: This script must be run inside a Git repository."],
       { st with counter := st.counter + 1 }, true) ∧
      succCommits (pyMain exec rng now st).1 = 0 ∧
      hasPush (pyMain exec rng now st).1 = false ∧
      (pyMain exec rng now st).2.1.file = st.file := by
  have hmain : pyMain exec rng now st =
      ([Event.run Cmd.revParse none false,
        Event.print "Error: This script must be run inside a Git repository."],
       { st with counter := st.counter + 1 }, true) := by
    simp [pyMain, h]
  refine ⟨hmain, ?_, ?_, ?_⟩ <;> rw [hmain] <;> simp [succCommits, hasPush]

/-- C7 (witness): concrete run with a failing precondition check. -/
theorem main_precondition_abort_witness :
    pyMain (fun _ => false) [0] 604800 ⟨0, [], []⟩ =
      ([Event.run Cmd.revParse none false,
        Event.print "Error: This script must be run inside a Git repository."],
       ⟨1, [], []⟩, true) ∧
      succCommits (pyMain (fun _ => false) [0] 604800 ⟨0, [], []⟩).1 = 0 ∧
      hasPush (pyMain (fun _ => false) [0] 604800 ⟨0, [], []⟩).1 = false ∧
      (pyMain (fun _ => false) [0] 604800 ⟨0, [], []⟩).2.1.file = [] :=
  main_precondition_abort (fun _ => false) [0] 604800 ⟨0, [], []⟩ rfl

/-- C8: the date overrides are scoped to the single `git commit`
invocation. The orchestrator's own environment is unchanged after
`make_commit`; the `git commit` event (index 2 of the trace, when the
stage succeeded) carries exactly the ambient environment extended with the
two date variables for its own date; and a second `make_commit` after the
first builds its commit environment from the same original ambient
environment with its own date — the first call's overrides do not leak. -/
theorem make_commit_env_scoped (exec : Nat → Bool) (dt dt2 : Nat) (st : St) :
    (make_commit exec dt st).2.1.procEnv = st.procEnv ∧
      (make_commit exec dt st).1[2]? =
        (if exec st.counter = true then
          some (Event.run (Cmd.commit (commitMsg dt)) (some (dateEnv st.procEnv dt))
            (exec (st.counter + 1)))
        else none) ∧
      (make_commit exec dt2 (make_commit exec dt st).2.1).1[2]? =
        (if exec (make_commit exec dt st).2.1.counter = true then
          some (Event.run (Cmd.commit (commitMsg dt2)) (some (dateEnv st.procEnv dt2))
            (exec ((make_commit exec dt st).2.1.counter + 1)))
        else none) := by
  by_cases h1 : exec st.counter = true <;>
    by_cases h2 : exec (st.counter + 1) = true <;>
    by_cases h3 : exec (st.counter + 2) = true <;>
    by_cases h4 : exec (st.counter + 3) = true <;>
    simp [make_commit, commitMsg, dateEnv, h1, h2, h3, h4]

/-- C9: `make_commit` appends its line to the tracked file strictly before
issuing the stage command — the first two trace events are always the file
append then the `git add` — and the append persists in the final state
unconditionally, so a stage or commit failure leaves the file mutation in
place with no rollback. -/
theorem make_commit_append_before_stage (exec : Nat → Bool) (dt : Nat) (st : St) :
    (make_commit exec dt st).1.take 2 =
      [Event.append "dummy.txt" (commitLine dt),
       Event.run (Cmd.add "dummy.txt") none (exec st.counter)] ∧
      (make_commit exec dt st).2.1.file = st.file ++ [commitLine dt] := by
  by_cases h1 : exec st.counter = true <;> by_cases h2 : exec (st.counter + 1) = true <;>
    simp [make_commit, commitLine, h1, h2]

/-- When every external invocation succeeds, the commit loop emits exactly
one expected event block per timestamp, in schedule order, advancing the
counter by two per commit and appending one line per commit to the tracked
file, with the process environment unchanged. -/
theorem applyCommits_all_ok (exec : Nat → Bool) (hall : ∀ k, exec k = true) :
    ∀ (dts : List Nat) (st : St),
      applyCommits exec dts st =
        (dts.flatMap (commitEvents st.procEnv),
         ⟨st.counter + 2 * dts.length, st.procEnv, st.file ++ dts.map commitLine⟩, true) := by
  intro dts
  induction dts with
  | nil => intro st; simp [applyCommits]
  | cons dt rest ih =>
    intro st
    have hmc := make_commit_all_ok exec dt st (hall _) (hall _)
    simp only [applyCommits, hmc]
    rw [ih ⟨st.counter + 2, st.procEnv, st.file ++ [commitLine dt]⟩]
    simp only [List.flatMap_cons, List.map_cons, List.length_cons, if_true]
    simp [St.mk.injEq, List.append_assoc]
    omega

/-- `main` after a fully successful commit loop with result `(E, S, true)`:
precondition check, banner, the loop's events, a single push, and the
confirmation line. -/
theorem pyMain_ok (exec : Nat → Bool) (rng : List Nat) (now : Nat) (st : St)
    (E : List Event) (S : St)
    (hok0 : exec st.counter = true)
    (happ : applyCommits exec (generate_commit_dates (daysFromCivil 2024 6 1) now rng)
      { st with counter := st.counter + 1 } = (E, S, true))
    (hP : exec S.counter = true) :
    pyMain exec rng now st =
      (Event.run Cmd.revParse none true ::
        Event.print ("Generating " ++
          toString (generate_commit_dates (daysFromCivil 2024 6 1) now rng).length ++
          " fake commits from " ++ dateStr (daysFromCivil 2024 6 1) ++ " to " ++
          dateStr (dateOf now) ++ "...") ::
        (E ++ [Event.run Cmd.push none true,
               Event.print "All fake commits have been pushed."]),
       { S with counter := S.counter + 1 }, true) := by
  simp only [pyMain]
  rw [hok0, happ, hP]
  simp

/-- `main` after a commit loop that aborted with result `(E, S, false)`:
precondition check, banner, the loop's events up to the failure, and
nothing else — the propagating exception skips the push and the
confirmation line. -/
theorem pyMain_fail (exec : Nat → Bool) (rng : List Nat) (now : Nat) (st : St)
    (E : List Event) (S : St)
    (hok0 : exec st.counter = true)
    (happ : applyCommits exec (generate_commit_dates (daysFromCivil 2024 6 1) now rng)
      { st with counter := st.counter + 1 } = (E, S, false)) :
    pyMain exec rng now st =
      (Event.run Cmd.revParse none true ::
        Event.print ("Generating " ++
          toString (generate_commit_dates (daysFromCivil 2024 6 1) now rng).length ++
          " fake commits from " ++ dateStr (daysFromCivil 2024 6 1) ++ " to " ++
          dateStr (dateOf now) ++ "...") ::
        E, S, false) := by
  simp only [pyMain]
  rw [hok0, happ]
  simp

/-- C6: on a fully successful run, `main` checks the precondition, prints
the generation banner, then for each timestamp of the schedule in order
appends one line to the tracked file, stages it, and records one commit
whose commit environment overrides both `GIT_AUTHOR_DATE` and
`GIT_COMMITTER_DATE` to that timestamp (never the ambient clock), and
finally issues a single `git push` after all commits, followed by the
confirmation line. -/
theorem main_success_trace (exec : Nat → Bool) (rng : List Nat) (now : Nat) (st : St)
    (hall : ∀ k, exec k = true) :
    pyMain exec rng now st =
      (Event.run Cmd.revParse none true ::
        Event.print ("Generating " ++
          toString (generate_commit_dates (daysFromCivil 2024 6 1) now rng).length ++
          " fake commits from " ++ dateStr (daysFromCivil 2024 6 1) ++ " to " ++
          dateStr (dateOf now) ++ "...") ::
        ((generate_commit_dates (daysFromCivil 2024 6 1) now rng).flatMap
            (commitEvents st.procEnv) ++
          [Event.run Cmd.push none true,
           Event.print "All fake commits have been pushed."]),
       ⟨st.counter + 2 * (generate_commit_dates (daysFromCivil 2024 6 1) now rng).length + 2,
        st.procEnv,
        st.file ++ (generate_commit_dates (daysFromCivil 2024 6 1) now rng).map commitLine⟩,
       true) := by
  have happ := applyCommits_all_ok exec hall
    (generate_commit_dates (daysFromCivil 2024 6 1) now rng)
    { st with counter := st.counter + 1 }
  refine (pyMain_ok exec rng now st _ _ (hall _) happ (hall _)).trans ?_
  simp [St.mk.injEq]
  omega

/-- C5: if the commits up to some point of the schedule succeed and the
next `make_commit` fails (stage or commit returning non-zero), the run
aborts immediately: the exception propagates out of `main` (result
`false`), exactly the commits before the failure have been recorded (no
retry, no rollback), no push is ever attempted, and the trace past the
banner contains only the successful prefix and the failing call's events —
no later timestamp is processed. -/
theorem run_aborts_on_failure (exec : Nat → Bool) (rng : List Nat) (now : Nat) (st : St)
    (done rest : List Nat) (dt : Nat)
    (hok0 : exec st.counter = true)
    (hsched : generate_commit_dates (daysFromCivil 2024 6 1) now rng = done ++ dt :: rest)
    (hdone : (applyCommits exec done { st with counter := st.counter + 1 }).2.2 = true)
    (hfail : (make_commit exec dt
        (applyCommits exec done { st with counter := st.counter + 1 }).2.1).2.2 = false) :
    (pyMain exec rng now st).2.2 = false ∧
      succCommits (pyMain exec rng now st).1 = done.length ∧
      hasPush (pyMain exec rng now st).1 = false ∧
      (pyMain exec rng now st).1.drop 2 =
        (applyCommits exec done { st with counter := st.counter + 1 }).1 ++
          (make_commit exec dt
            (applyCommits exec done { st with counter := st.counter + 1 }).2.1).1 ∧
      (pyMain exec rng now st).2.1 =
        (make_commit exec dt
          (applyCommits exec done { st with counter := st.counter + 1 }).2.1).2.1 := by
  have hstep : applyCommits exec (dt :: rest)
      (applyCommits exec done { st with counter := st.counter + 1 }).2.1 =
      ((make_commit exec dt (applyCommits exec done { st with counter := st.counter + 1 }).2.1).1,
       (make_commit exec dt
         (applyCommits exec done { st with counter := st.counter + 1 }).2.1).2.1, false) := by
    simp [applyCommits, hfail]
  have hfull : applyCommits exec (generate_commit_dates (daysFromCivil 2024 6 1) now rng)
      { st with counter := st.counter + 1 } =
      ((applyCommits exec done { st with counter := st.counter + 1 }).1 ++
        (make_commit exec dt (applyCommits exec done { st with counter := st.counter + 1 }).2.1).1,
       (make_commit exec dt
         (applyCommits exec done { st with counter := st.counter + 1 }).2.1).2.1, false) := by
    rw [hsched, applyCommits_append exec done _ hdone (dt :: rest), hstep]
  have hmain := pyMain_fail exec rng now st _ _ hok0 hfull
  rw [hmain]
  refine ⟨rfl, ?_, ?_, by simp, rfl⟩
  · simp only [succCommits, List.countP_cons, List.countP_append]
    have h1 := succCommits_applyCommits exec done { st with counter := st.counter + 1 } hdone
    have h2 := succCommits_make_commit exec dt
      (applyCommits exec done { st with counter := st.counter + 1 }).2.1
    rw [hfail] at h2
    simp only [succCommits] at h1 h2
    simp [h1, h2]
  · simp only [hasPush, List.any_cons, List.any_append]
    have h1 := hasPush_applyCommits exec done { st with counter := st.counter + 1 }
    have h2 := hasPush_make_commit exec dt
      (applyCommits exec done { st with counter := st.counter + 1 }).2.1
    simp only [hasPush] at h1 h2
    simp [h1, h2]

/-- Oracle failing exactly the fifth external invocation: the `git commit`
of the second scheduled timestamp (0 = rev-parse, 1/2 = first add+commit,
3/4 = second add+commit). -/
def execFail4 : Nat → Bool := fun k => k != 4

/-- Random stream drawing five commits in one week, on consecutive days at
09:00:00. -/
def rngFive : List Nat :=
  [2, 0, 0, 0, 0, 1, 0, 0, 0, 2, 0, 0, 0, 3, 0, 0, 0, 4, 0, 0, 0]

/-- End instant 2024-06-08T00:00:00 (one week past the fixed start). -/
def nowFive : Nat := 1717804800

/-- Initial orchestrator state. -/
def stZero : St := ⟨0, [], []⟩

/-- C5 (witness): with a five-timestamp schedule and the commit step
failing on the second timestamp, the run aborts with exactly one commit
recorded, no push, and no processing of timestamps 3–5. -/
theorem run_aborts_on_failure_witness :
    (pyMain execFail4 rngFive nowFive stZero).2.2 = false ∧
      succCommits (pyMain execFail4 rngFive nowFive stZero).1 = 1 ∧
      hasPush (pyMain execFail4 rngFive nowFive stZero).1 = false ∧
      (pyMain execFail4 rngFive nowFive stZero).1.drop 2 =
        (applyCommits execFail4 [1717232400]
            { stZero with counter := stZero.counter + 1 }).1 ++
          (make_commit execFail4 1717318800
            (applyCommits execFail4 [1717232400]
              { stZero with counter := stZero.counter + 1 }).2.1).1 ∧
      (pyMain execFail4 rngFive nowFive stZero).2.1 =
        (make_commit execFail4 1717318800
          (applyCommits execFail4 [1717232400]
            { stZero with counter := stZero.counter + 1 }).2.1).2.1 :=
  run_aborts_on_failure execFail4 rngFive nowFive stZero
    [1717232400] [1717405200, 1717491600, 1717578000] 1717318800
    rfl
    (by simp [generate_commit_dates, genLoop, genWeek, randint, dateOf, secondsPerDay, combine,
      List.mergeSort, rngFive, daysFromCivil, nowFive])
    rfl
    rfl

/-- C6 (witness): a fully successful run (here with an empty schedule,
end instant 0) produces exactly the expected trace: precondition check,
banner, per-commit blocks, single push, confirmation. -/
theorem main_success_trace_witness :
    pyMain (fun _ => true) [] 0 ⟨0, [], []⟩ =
      (Event.run Cmd.revParse none true ::
        Event.print ("Generating " ++
          toString (generate_commit_dates (daysFromCivil 2024 6 1) 0 []).length ++
          " fake commits from " ++ dateStr (daysFromCivil 2024 6 1) ++ " to " ++
          dateStr (dateOf 0) ++ "...") ::
        ((generate_commit_dates (daysFromCivil 2024 6 1) 0 []).flatMap (commitEvents []) ++
          [Event.run Cmd.push none true,
           Event.print "All fake commits have been pushed."]),
       ⟨0 + 2 * (generate_commit_dates (daysFromCivil 2024 6 1) 0 []).length + 2, [],
        (generate_commit_dates (daysFromCivil 2024 6 1) 0 []).map commitLine⟩,
       true) :=
  main_success_trace (fun _ => true) [] 0 ⟨0, [], []⟩ (fun _ => rfl)
